import Mathlib

/-
Verification of the package-lister program (main.go) against its
natural-language specification.

The program is a dispatcher over three listers (RPM, Debian, Homebrew),
each producing a list of Package records.  We embed the pure parsing and
record-construction logic shallowly:

  * Go strings are modelled as `List Char`; record fields as `String`.
  * `strings.TrimSpace`, `strings.SplitN`, `strings.Split`,
    `strings.ToLower`, `strings.HasPrefix`, `strconv.ParseInt`,
    `strconv.ParseUint` get explicit executable models (the Latin-1
    fragment of Go whitespace and ASCII case folding, which is all the
    parsed formats exercise).
  * `time.Unix(ts, 0)` / directory modification times are modelled as the
    epoch seconds integer.
  * Fallible code returns `Except String`; the process I/O that feeds each
    lister (command output, file lines, directory tree) is the lister's
    explicit input.
-/

/-- Latin-1 fragment of Go unicode.IsSpace, used by strings.TrimSpace. -/
def goIsSpace (c : Char) : Bool :=
  c = ' ' || c = '\t' || c = '\n' || c = '\u000b' || c = '\u000c' ||
  c = '\r' || c = '\u0085' || c = '\u00a0'

/-- Model of strings.TrimSpace on the character list. -/
def goTrimSpace (l : List Char) : List Char :=
  ((l.dropWhile goIsSpace).reverse.dropWhile goIsSpace).reverse

/-- ASCII case folding for one character. -/
def lowerChar (c : Char) : Char :=
  if 'A' ≤ c ∧ c ≤ 'Z' then Char.ofNat (c.toNat + 32) else c

/-- Model of strings.ToLower (ASCII fragment). -/
def goToLower (l : List Char) : List Char := l.map lowerChar

/-- Whether a Go string is blank: len(strings.TrimSpace(line)) == 0. -/
def isBlank (l : List Char) : Bool := (goTrimSpace l).isEmpty

/-- Model of strings.HasPrefix(line, " "): the first character is a
space. -/
def startsWithSpace (l : List Char) : Bool :=
  decide (l.head? = some ' ')

/-- Split a character list at every occurrence of `sep`
(model of strings.Split with a one-character separator). -/
def splitChar (sep : Char) : List Char → List (List Char)
  | [] => [[]]
  | c :: cs =>
    if c = sep then
      [] :: splitChar sep cs
    else
      match splitChar sep cs with
      | [] => [[c]]
      | w :: ws => (c :: w) :: ws

/-- Join pieces back with `sep` between them (inverse of `splitChar`). -/
def joinSep (sep : Char) : List (List Char) → List Char
  | [] => []
  | [w] => w
  | w :: ws => w ++ sep :: joinSep sep ws

/-- Model of strings.SplitN with a one-character separator and count `n`:
at most `n` pieces, the last piece being the unsplit remainder. -/
def goSplitN (sep : Char) (n : Nat) (l : List Char) : List (List Char) :=
  if (splitChar sep l).length ≤ n then splitChar sep l
  else (splitChar sep l).take (n - 1) ++ [joinSep sep ((splitChar sep l).drop (n - 1))]

/-- Decimal value of a digit string. -/
def digitsVal (l : List Char) : Nat :=
  l.foldl (fun a c => a * 10 + (c.toNat - 48)) 0

/-- Model of strconv.ParseUint(s, 10, 64): digits only, no sign,
result below 2^64. -/
def goParseUint64 (l : List Char) : Option Nat :=
  if (!l.isEmpty) && l.all Char.isDigit then
    if digitsVal l < 2 ^ 64 then some (digitsVal l) else none
  else none

/-- Model of strconv.ParseInt(s, 10, 64): optional sign, digits,
result within the signed 64-bit range. -/
def goParseInt64 (l : List Char) : Option Int :=
  match l with
  | '-' :: rest =>
    if (!rest.isEmpty) && rest.all Char.isDigit then
      if digitsVal rest ≤ 2 ^ 63 then some (-(digitsVal rest : Int)) else none
    else none
  | '+' :: rest =>
    if (!rest.isEmpty) && rest.all Char.isDigit then
      if digitsVal rest < 2 ^ 63 then some ((digitsVal rest : Int)) else none
    else none
  | _ =>
    if (!l.isEmpty) && l.all Char.isDigit then
      if digitsVal l < 2 ^ 63 then some ((digitsVal l : Int)) else none
    else none

/-- The shared output schema (struct Package).  InstallTime is the epoch
seconds of time.Unix / the directory ModTime; the zero time is 0. -/
structure Package where
  Name : String
  Version : String
  Release : String
  Arch : String
  License : String
  InstallTime : Int
  Size : Nat
  Summary : String
deriving DecidableEq

/-- Zero value of the Package struct. -/
def emptyPackage : Package := ⟨"", "", "", "", "", 0, 0, ""⟩

/-- Body of the listRPMPackages loop over the output lines of
rpm -qa: skip blank lines, SplitN on the pipe with count 8, error when
fewer than 8 fields, parse field 6 (install time) and field 7 (size),
append the record. -/
def rpmLoop : List (List Char) → Except String (List Package)
  | [] => .ok []
  | line :: rest =>
    if isBlank line then rpmLoop rest
    else
      let words := goSplitN '|' 8 line
      if words.length < 8 then
        .error "Line does not have at least 7 elements"
      else
        match goParseInt64 (words.getD 5 []) with
        | none => .error "Error converting install time"
        | some ts =>
          match goParseUint64 (words.getD 6 []) with
          | none => .error "Error converting size"
          | some sz =>
            match rpmLoop rest with
            | .error e => .error e
            | .ok ps =>
              .ok (⟨⟨words.getD 0 []⟩, ⟨words.getD 1 []⟩, ⟨words.getD 2 []⟩,
                    ⟨words.getD 3 []⟩, ⟨words.getD 4 []⟩, ts, sz,
                    ⟨words.getD 7 []⟩⟩ :: ps)

/-- Model of listRPMPackages, taking the raw stdout of the rpm command
(successful command execution) as input: split on newlines and run the
per-line loop. -/
def listRPMPackages (out : List Char) : Except String (List Package) :=
  rpmLoop (splitChar '\n' out)

/-- State of the Debian status-file scan: the completed records and the
in-progress record. -/
structure DebState where
  packages : List Package
  pkg : Package
deriving DecidableEq

/-- Dispatch on the lower-cased key of a Debian `Key: value` line
(the switch statement of listDebPackages). -/
def debKeyUpdate (pkg : Package) (key value : List Char) : Except String Package :=
  if key = "package".data then .ok { pkg with Name := ⟨value⟩ }
  else if key = "architecture".data then .ok { pkg with Arch := ⟨value⟩ }
  else if key = "version".data then .ok { pkg with Version := ⟨value⟩ }
  else if key = "description".data then .ok { pkg with Summary := ⟨value⟩ }
  else if key = "installed-size".data then
    match goParseUint64 value with
    | some n => .ok { pkg with Size := n }
    | none => .error "Error converting value to int"
  else .ok pkg

/-- One iteration of the listDebPackages scanner loop: a blank line
appends the in-progress record and resets it; a line with a leading
space is skipped; otherwise SplitN on the colon with count 2, error if
no colon, and dispatch on the lower-cased key. -/
def debStep (st : DebState) (line : List Char) : Except String DebState :=
  if isBlank line then
    .ok ⟨st.packages ++ [st.pkg], emptyPackage⟩
  else if startsWithSpace line then
    .ok st
  else
    let words := goSplitN ':' 2 line
    if words.length = 2 then
      match debKeyUpdate st.pkg (goToLower (words.getD 0 []))
          (goTrimSpace (words.getD 1 [])) with
      | .ok pkg => .ok ⟨st.packages, pkg⟩
      | .error e => .error e
    else
      .error "The following line was unexpected, no colon found"

/-- Run the scanner loop over all lines. -/
def debSteps : DebState → List (List Char) → Except String DebState
  | st, [] => .ok st
  | st, l :: ls =>
    match debStep st l with
    | .error e => .error e
    | .ok next => debSteps next ls

/-- Model of listDebPackages, taking the sequence of lines the scanner
yields from /var/lib/dpkg/status as input. -/
def listDebPackages (lines : List (List Char)) : Except String (List Package) :=
  match debSteps ⟨[], emptyPackage⟩ lines with
  | .error e => .error e
  | .ok st => .ok st.packages

/-- A node of the cellar directory tree: a plain file with its text
content, or a directory with its modification time and entries. -/
inductive FSNode where
  | file (name : String) (content : List Char)
  | dir (name : String) (modTime : Int) (entries : List FSNode)

/-- Inner loop of listBrewPackages over the entries of one package
directory: every subdirectory is a version and yields one record. -/
def brewVersions (pname : String) : List FSNode → List Package
  | [] => []
  | FSNode.file _ _ :: rest => brewVersions pname rest
  | FSNode.dir vname mt _ :: rest =>
    ⟨pname, vname, "", "", "", mt, 0, ""⟩ :: brewVersions pname rest

/-- Model of listBrewPackages, taking the cellar directory listing as
input (the success path of the directory I/O): every subdirectory of the
cellar is a package, every subdirectory of a package is a version. -/
def listBrewPackages : List FSNode → List Package
  | [] => []
  | FSNode.file _ _ :: rest => listBrewPackages rest
  | FSNode.dir pname _ entries :: rest =>
    brewVersions pname entries ++ listBrewPackages rest

/-- Projection: is the node a directory (FileInfo.IsDir). -/
def isDirNode : FSNode → Bool
  | FSNode.dir _ _ _ => true
  | FSNode.file _ _ => false

/-- Projection: node name. -/
def nodeName : FSNode → String
  | FSNode.dir n _ _ => n
  | FSNode.file n _ => n

/-- Projection: directory modification time (0 for a plain file). -/
def nodeModTime : FSNode → Int
  | FSNode.dir _ t _ => t
  | FSNode.file _ _ => 0

/-- Projection: directory entries (empty for a plain file). -/
def nodeEntries : FSNode → List FSNode
  | FSNode.dir _ _ es => es
  | FSNode.file _ _ => []

/-- The base record the Homebrew lister builds for one
(package directory, version directory) pair. -/
def brewBaseRecord (pname : String) (v : FSNode) : Package :=
  ⟨pname, nodeName v, "", "", "", nodeModTime v, 0, ""⟩

/-- Strip one pair of surrounding double quotes after trimming
(the quoted/trimmed capture the spec describes). -/
def unquote (l : List Char) : List Char :=
  match goTrimSpace l with
  | '"' :: rest => if rest.getLast? = some '"' then rest.dropLast else '"' :: rest
  | t => t

/-- First line carrying the marker, with the remainder captured. -/
def specScanFind (marker : List Char) (ls : List (List Char)) : List Char :=
  match ls.find? (fun l => marker.isPrefixOf l) with
  | some l => unquote (l.drop marker.length)
  | none => []

/-- Modelled from the spec: the Homebrew companion-file enrichment scan
that the spec describes but the source does not contain — scan only the
first 15 lines of the companion file; a line beginning with the
two-space-indented desc marker yields Summary, one with the homepage
marker yields URL. -/
def specScanMeta (content : List Char) : List Char × List Char :=
  let ls := (splitChar '\n' content).take 15
  (specScanFind "  desc ".data ls, specScanFind "  homepage ".data ls)

/-- The three listers the dispatcher can select. -/
inductive Lister where
  | rpm
  | deb
  | brew
deriving DecidableEq

/-- The switch over hostInfo.OS.Family in main, as a selection map. -/
def selectLister (family : String) : Option Lister :=
  if family = "redhat" then some Lister.rpm
  else if family = "debian" then some Lister.deb
  else if family = "darwin" then some Lister.brew
  else none

/-- The external inputs one run can consume: rpm command output, Debian
status-file lines, cellar directory tree. -/
structure HostInput where
  rpmOut : List Char
  debLines : List (List Char)
  cellar : List FSNode

/-- Run one lister on the host input; a lister error becomes exit code 1. -/
def runLister : Lister → HostInput → Except Nat (List Package)
  | Lister.rpm, inp =>
    match listRPMPackages inp.rpmOut with
    | .error _ => .error 1
    | .ok ps => .ok ps
  | Lister.deb, inp =>
    match listDebPackages inp.debLines with
    | .error _ => .error 1
    | .ok ps => .ok ps
  | Lister.brew, inp => .ok (listBrewPackages inp.cellar)

/-- Model of main after OS detection succeeded: the switch over the
detected family; `.ok ps` is a normal exit emitting the records `ps`,
`.error 1` is exit code 1 with nothing emitted. -/
def mainRun (family : String) (inp : HostInput) : Except Nat (List Package) :=
  if family = "redhat" then
    match listRPMPackages inp.rpmOut with
    | .error _ => .error 1
    | .ok ps => .ok ps
  else if family = "debian" then
    match listDebPackages inp.debLines with
    | .error _ => .error 1
    | .ok ps => .ok ps
  else if family = "darwin" then
    .ok (listBrewPackages inp.cellar)
  else .error 1

/-- A well-formed RPM output line: 8 pipe-delimited fields, field 6 a
base-10 signed 64-bit integer, field 7 an unsigned 64-bit integer. -/
def rpmWF (line : List Char) : Prop :=
  (goSplitN '|' 8 line).length = 8 ∧
  (goParseInt64 ((goSplitN '|' 8 line).getD 5 [])).isSome = true ∧
  (goParseUint64 ((goSplitN '|' 8 line).getD 6 [])).isSome = true

instance : DecidablePred rpmWF := fun l => by
  unfold rpmWF
  infer_instance

/-- The record a well-formed RPM line is mapped to: fields 1-5 to Name,
Version, Release, Arch, License; field 6 to InstallTime (epoch seconds);
field 7 to Size; field 8 to Summary. -/
def parseRPMFields (line : List Char) : Package :=
  let words := goSplitN '|' 8 line
  ⟨⟨words.getD 0 []⟩, ⟨words.getD 1 []⟩, ⟨words.getD 2 []⟩,
   ⟨words.getD 3 []⟩, ⟨words.getD 4 []⟩,
   (goParseInt64 (words.getD 5 [])).getD 0,
   (goParseUint64 (words.getD 6 [])).getD 0, ⟨words.getD 7 []⟩⟩

/-- A non-blank RPM line on which the per-line parse fails: a field
shortfall or a numeric conversion failure. -/
def rpmLineBad (line : List Char) : Prop :=
  isBlank line = false ∧
  ((goSplitN '|' 8 line).length < 8 ∨
   goParseInt64 ((goSplitN '|' 8 line).getD 5 []) = none ∨
   ((goSplitN '|' 8 line).length ≥ 8 ∧
    goParseUint64 ((goSplitN '|' 8 line).getD 6 []) = none))

instance : DecidablePred rpmLineBad := fun l => by
  unfold rpmLineBad
  infer_instance

/-- A Debian status-file line the scanner consumes without failing and
without touching the completed-records list: non-blank, and either a
continuation line or a colon line whose installed-size value (when that
is its key) parses. -/
def debLineOk (line : List Char) : Prop :=
  isBlank line = false ∧
  (startsWithSpace line = true ∨
    ((goSplitN ':' 2 line).length = 2 ∧
      (goToLower ((goSplitN ':' 2 line).getD 0 []) = "installed-size".data →
        (goParseUint64 (goTrimSpace ((goSplitN ':' 2 line).getD 1 []))).isSome = true)))

instance : DecidablePred debLineOk := fun l => by
  unfold debLineOk
  infer_instance

/-- A Debian line carrying an Installed-Size key whose value fails the
unsigned parse. -/
def debSizeBad (line : List Char) : Prop :=
  isBlank line = false ∧
  startsWithSpace line = false ∧
  (goSplitN ':' 2 line).length = 2 ∧
  goToLower ((goSplitN ':' 2 line).getD 0 []) = "installed-size".data ∧
  goParseUint64 (goTrimSpace ((goSplitN ':' 2 line).getD 1 [])) = none

instance : DecidablePred debSizeBad := fun l => by
  unfold debSizeBad
  infer_instance

instance {ε α : Type} [DecidableEq ε] [DecidableEq α] : DecidableEq (Except ε α) := fun a b =>
  match a, b with
  | .error x, .error y =>
    if h : x = y then .isTrue (h ▸ rfl) else .isFalse (fun hc => h (Except.error.inj hc))
  | .error _, .ok _ => .isFalse (fun hc => Except.noConfusion hc)
  | .ok _, .error _ => .isFalse (fun hc => Except.noConfusion hc)
  | .ok x, .ok y =>
    if h : x = y then .isTrue (h ▸ rfl) else .isFalse (fun hc => h (Except.ok.inj hc))

/-- Whether an Except value is an error (the run failed, no records). -/
def isErrorE {ε α : Type} : Except ε α → Bool
  | .error _ => true
  | .ok _ => false

lemma splitChar_ne_nil (sep : Char) (l : List Char) : splitChar sep l ≠ [] := by
  induction l with
  | nil => simp [splitChar]
  | cons c cs ih =>
    by_cases h : c = sep
    · simp [splitChar, h]
    · simp only [splitChar, if_neg h]
      cases hs : splitChar sep cs with
      | nil => simp
      | cons w ws => simp

lemma length_splitChar (sep : Char) (l : List Char) :
    (splitChar sep l).length = l.count sep + 1 := by
  induction l with
  | nil => simp [splitChar]
  | cons c cs ih =>
    by_cases h : c = sep
    · subst h
      simp [splitChar, List.count_cons, ih]
    · simp only [splitChar, if_neg h]
      cases hs : splitChar sep cs with
      | nil => exact absurd hs (splitChar_ne_nil sep cs)
      | cons w ws =>
        rw [hs] at ih
        simp only [List.length_cons] at ih ⊢
        have hne : ¬ sep = c := fun hc => h hc.symm
        simp [List.count_cons, hne, ih]

lemma joinSep_splitChar (sep : Char) (l : List Char) :
    joinSep sep (splitChar sep l) = l := by
  induction l with
  | nil => simp [splitChar, joinSep]
  | cons c cs ih =>
    by_cases h : c = sep
    · subst h
      simp only [splitChar, if_pos rfl]
      cases hs : splitChar c cs with
      | nil => exact absurd hs (splitChar_ne_nil c cs)
      | cons w ws =>
        rw [hs] at ih
        simp [joinSep, ih]
    · simp only [splitChar, if_neg h]
      cases hs : splitChar sep cs with
      | nil => exact absurd hs (splitChar_ne_nil sep cs)
      | cons w ws =>
        rw [hs] at ih
        cases ws with
        | nil =>
          simp only [joinSep] at ih ⊢
          rw [ih]
        | cons w2 ws2 =>
          simp only [joinSep] at ih ⊢
          rw [List.cons_append, ih]

lemma mem_joinSep (sep : Char) (ws : List (List Char)) (h : 2 ≤ ws.length) :
    sep ∈ joinSep sep ws := by
  cases ws with
  | nil => simp at h
  | cons w1 ws1 =>
    cases ws1 with
    | nil => simp at h
    | cons w2 rest => simp [joinSep]

lemma getD_append_singleton {α : Type} (xs : List α) (x d : α) :
    (xs ++ [x]).getD xs.length d = x := by
  induction xs with
  | nil => rfl
  | cons a as ih => simp [ih]

lemma rpmLoop_ok_of_wf (lines : List (List Char))
    (h : ∀ l ∈ lines, isBlank l = false → rpmWF l) :
    rpmLoop lines = .ok ((lines.filter (fun l => !isBlank l)).map parseRPMFields) := by
  induction lines with
  | nil => rfl
  | cons line rest ih =>
    have hrest : ∀ l ∈ rest, isBlank l = false → rpmWF l :=
      fun l hl => h l (List.mem_cons_of_mem _ hl)
    by_cases hb : isBlank line = true
    · simp [rpmLoop, hb, ih hrest]
    · have hbf : isBlank line = false := by
        cases hx : isBlank line
        · rfl
        · exact absurd hx hb
      obtain ⟨hlen, hint, huint⟩ := h line (List.mem_cons_self _ _) hbf
      obtain ⟨ts, hts⟩ := Option.isSome_iff_exists.mp hint
      obtain ⟨sz, hsz⟩ := Option.isSome_iff_exists.mp huint
      have hnlt : ¬ (goSplitN '|' 8 line).length < 8 := by omega
      simp only [List.getD_eq_getElem?_getD] at hts hsz
      simp [rpmLoop, hbf, hnlt, hts, hsz, ih hrest, parseRPMFields]

lemma rpmLoop_error_of_bad (lines : List (List Char)) (l : List Char)
    (hmem : l ∈ lines) (hbad : rpmLineBad l) :
    isErrorE (rpmLoop lines) = true := by
  induction lines with
  | nil => simp at hmem
  | cons a rest ih =>
    rcases List.mem_cons.mp hmem with rfl | hmem2
    · obtain ⟨hnb, hcase⟩ := hbad
      rcases hcase with hlt | hint | ⟨hge, huint⟩
      · simp [rpmLoop, hnb, hlt, isErrorE]
      · simp only [List.getD_eq_getElem?_getD] at hint
        by_cases hlt : (goSplitN '|' 8 l).length < 8
        · simp [rpmLoop, hnb, hlt, isErrorE]
        · simp [rpmLoop, hnb, hlt, hint, isErrorE]
      · have hnlt : ¬ (goSplitN '|' 8 l).length < 8 := by omega
        simp only [List.getD_eq_getElem?_getD] at huint
        cases hints : goParseInt64 ((goSplitN '|' 8 l)[5]?.getD []) with
        | none => simp [rpmLoop, hnb, hnlt, hints, isErrorE]
        | some ts => simp [rpmLoop, hnb, hnlt, hints, huint, isErrorE]
    · have he := ih hmem2
      by_cases hb : isBlank a = true
      · simp [rpmLoop, hb, he]
      · have hbf : isBlank a = false := by
          cases hx : isBlank a
          · rfl
          · exact absurd hx hb
        by_cases hlt : (goSplitN '|' 8 a).length < 8
        · simp [rpmLoop, hbf, hlt, isErrorE]
        · cases hint : goParseInt64 ((goSplitN '|' 8 a)[5]?.getD []) with
          | none => simp [rpmLoop, hbf, hlt, hint, isErrorE]
          | some ts =>
            cases huint : goParseUint64 ((goSplitN '|' 8 a)[6]?.getD []) with
            | none => simp [rpmLoop, hbf, hlt, hint, huint, isErrorE]
            | some sz =>
              cases hrest : rpmLoop rest with
              | error e => simp [rpmLoop, hbf, hlt, hint, huint, hrest, isErrorE]
              | ok ps =>
                rw [hrest] at he
                simp [isErrorE] at he

lemma debKeyUpdate_ok (pkg : Package) (key value : List Char)
    (h : key = "installed-size".data → (goParseUint64 value).isSome = true) :
    ∃ p, debKeyUpdate pkg key value = .ok p := by
  by_cases h1 : key = "package".data
  · exact ⟨{ pkg with Name := ⟨value⟩ }, by simp [debKeyUpdate, h1]⟩
  · by_cases h2 : key = "architecture".data
    · exact ⟨{ pkg with Arch := ⟨value⟩ }, by simp [debKeyUpdate, h1, h2]⟩
    · by_cases h3 : key = "version".data
      · exact ⟨{ pkg with Version := ⟨value⟩ }, by simp [debKeyUpdate, h1, h2, h3]⟩
      · by_cases h4 : key = "description".data
        · exact ⟨{ pkg with Summary := ⟨value⟩ }, by simp [debKeyUpdate, h1, h2, h3, h4]⟩
        · by_cases h5 : key = "installed-size".data
          · obtain ⟨n, hn⟩ := Option.isSome_iff_exists.mp (h h5)
            exact ⟨{ pkg with Size := n }, by simp [debKeyUpdate, h1, h2, h3, h4, h5, hn]⟩
          · exact ⟨pkg, by simp [debKeyUpdate, h1, h2, h3, h4, h5]⟩

lemma debStep_lineOk (line : List Char) (h : debLineOk line) (st : DebState) :
    ∃ q, debStep st line = .ok ⟨st.packages, q⟩ := by
  obtain ⟨hnb, hrest⟩ := h
  by_cases hsp : startsWithSpace line = true
  · exact ⟨st.pkg, by simp [debStep, hnb, hsp]⟩
  · have hco := hrest.resolve_left hsp
    obtain ⟨hlen, hsize⟩ := hco
    obtain ⟨p, hp⟩ := debKeyUpdate_ok st.pkg (goToLower ((goSplitN ':' 2 line).getD 0 []))
      (goTrimSpace ((goSplitN ':' 2 line).getD 1 [])) hsize
    have hspf : startsWithSpace line = false := by
      cases hx : startsWithSpace line
      · rfl
      · exact absurd hx hsp
    have hb0 : (0 : Nat) < (goSplitN ':' 2 line).length := by omega
    have hb1 : (1 : Nat) < (goSplitN ':' 2 line).length := by omega
    simp only [List.getD_eq_getElem?_getD, List.getElem?_eq_getElem hb0,
      List.getElem?_eq_getElem hb1, Option.getD_some] at hp
    exact ⟨p, by simp [debStep, hnb, hspf, hlen, hp]⟩

lemma debStep_blank (st : DebState) (line : List Char) (h : isBlank line = true) :
    debStep st line = .ok ⟨st.packages ++ [st.pkg], emptyPackage⟩ := by
  simp [debStep, h]

lemma debSteps_ok_frame (ls : List (List Char)) (h : ∀ l ∈ ls, debLineOk l) :
    ∀ st, ∃ q, debSteps st ls = .ok ⟨st.packages, q⟩ := by
  induction ls with
  | nil => exact fun st => ⟨st.pkg, rfl⟩
  | cons l ls ih =>
    intro st
    obtain ⟨q1, h1⟩ := debStep_lineOk l (h l (List.mem_cons_self _ _)) st
    obtain ⟨q, hq⟩ := ih (fun x hx => h x (List.mem_cons_of_mem _ hx)) ⟨st.packages, q1⟩
    exact ⟨q, by simp [debSteps, h1, hq]⟩

lemma debSteps_append (st : DebState) (xs ys : List (List Char)) (st2 : DebState)
    (h : debSteps st xs = .ok st2) : debSteps st (xs ++ ys) = debSteps st2 ys := by
  induction xs generalizing st with
  | nil =>
    simp only [debSteps] at h
    cases h
    rfl
  | cons x xs ih =>
    simp only [List.cons_append, debSteps] at h ⊢
    cases hx : debStep st x with
    | error e =>
      rw [hx] at h
      exact absurd h (by simp)
    | ok stx =>
      rw [hx] at h
      exact ih stx h

lemma debSteps_blocks (blocks : List (List (List Char)))
    (h : ∀ b ∈ blocks, ∀ l ∈ b, debLineOk l) :
    ∀ st, ∃ ps q, debSteps st (blocks.flatMap (fun b => b ++ [[]])) =
      .ok ⟨st.packages ++ ps, q⟩ ∧ ps.length = blocks.length := by
  induction blocks with
  | nil =>
    intro st
    refine ⟨[], st.pkg, ?_, rfl⟩
    simp [debSteps]
  | cons b bs ih =>
    intro st
    obtain ⟨q1, h1⟩ := debSteps_ok_frame b (h b (List.mem_cons_self _ _)) st
    have h2 : debStep ⟨st.packages, q1⟩ [] = .ok ⟨st.packages ++ [q1], emptyPackage⟩ := rfl
    have h12 : debSteps st (b ++ [[]]) = .ok ⟨st.packages ++ [q1], emptyPackage⟩ := by
      rw [debSteps_append st b [[]] _ h1]
      simp [debSteps, h2]
    obtain ⟨ps, q, hps, hlen⟩ :=
      ih (fun x hx => h x (List.mem_cons_of_mem _ hx)) ⟨st.packages ++ [q1], emptyPackage⟩
    refine ⟨q1 :: ps, q, ?_, by simp [hlen]⟩
    have hbind : ((b :: bs).flatMap (fun b => b ++ [[]])) =
        (b ++ [[]]) ++ (bs.flatMap (fun b => b ++ [[]])) := by
      simp [List.flatMap_cons]
    rw [hbind, debSteps_append st (b ++ [[]]) _ _ h12, hps]
    simp

lemma debStep_sizeBad (line : List Char) (h : debSizeBad line) (st : DebState) :
    isErrorE (debStep st line) = true := by
  obtain ⟨hnb, hsp, hlen, hkey, hval⟩ := h
  have hk1 : ¬ ("installed-size".data = "package".data) := by decide
  have hk2 : ¬ ("installed-size".data = "architecture".data) := by decide
  have hk3 : ¬ ("installed-size".data = "version".data) := by decide
  have hk4 : ¬ ("installed-size".data = "description".data) := by decide
  have hb0 : (0 : Nat) < (goSplitN ':' 2 line).length := by omega
  have hb1 : (1 : Nat) < (goSplitN ':' 2 line).length := by omega
  simp only [List.getD_eq_getElem?_getD, List.getElem?_eq_getElem hb0,
    List.getElem?_eq_getElem hb1, Option.getD_some] at hkey hval
  simp [debStep, hnb, hsp, hlen, debKeyUpdate, hkey, hk1, hk2, hk3, hk4, hval, isErrorE]

lemma debSteps_error_of_bad (lines : List (List Char)) (l : List Char)
    (hmem : l ∈ lines) (hbad : debSizeBad l) :
    ∀ st, isErrorE (debSteps st lines) = true := by
  induction lines with
  | nil => simp at hmem
  | cons a rest ih =>
    intro st
    rcases List.mem_cons.mp hmem with rfl | h2
    · have hstep := debStep_sizeBad l hbad st
      cases hx : debStep st l with
      | error e => simp [debSteps, hx, isErrorE]
      | ok st2 =>
        rw [hx] at hstep
        simp [isErrorE] at hstep
    · cases ha : debStep st a with
      | error e => simp [debSteps, ha, isErrorE]
      | ok st2 =>
        simp only [debSteps, ha]
        exact ih h2 st2

lemma listDeb_error_of_bad (lines : List (List Char)) (l : List Char)
    (hmem : l ∈ lines) (hbad : debSizeBad l) :
    isErrorE (listDebPackages lines) = true := by
  have h := debSteps_error_of_bad lines l hmem hbad ⟨[], emptyPackage⟩
  cases hd : debSteps ⟨[], emptyPackage⟩ lines with
  | error e => simp [listDebPackages, hd, isErrorE]
  | ok st =>
    rw [hd] at h
    simp [isErrorE] at h

lemma brewVersions_eq (p : String) (es : List FSNode) :
    brewVersions p es = (es.filter isDirNode).map (brewBaseRecord p) := by
  induction es with
  | nil => rfl
  | cons e rest ih =>
    cases e with
    | file n c => simp [brewVersions, isDirNode, ih]
    | dir n t ents =>
      simp [brewVersions, isDirNode, ih, brewBaseRecord, nodeName, nodeModTime]

lemma listBrew_eq (cellar : List FSNode) :
    listBrewPackages cellar = (cellar.filter isDirNode).flatMap
      (fun d => ((nodeEntries d).filter isDirNode).map (brewBaseRecord (nodeName d))) := by
  induction cellar with
  | nil => rfl
  | cons e rest ih =>
    cases e with
    | file n c => simp [listBrewPackages, isDirNode, ih]
    | dir n t ents =>
      simp [listBrewPackages, isDirNode, ih, brewVersions_eq, nodeEntries, nodeName]

lemma mem_listBrew_fields (cellar : List FSNode) (p : Package)
    (h : p ∈ listBrewPackages cellar) :
    p.Summary = "" ∧ p.Release = "" ∧ p.Arch = "" ∧ p.License = "" ∧ p.Size = 0 := by
  rw [listBrew_eq] at h
  simp only [List.mem_flatMap, List.mem_map, List.mem_filter] at h
  obtain ⟨d, _, v, _, rfl⟩ := h
  simp [brewBaseRecord]

lemma mainRun_eq_select (family : String) (inp : HostInput) :
    mainRun family inp =
      (match selectLister family with
       | none => .error 1
       | some L => runLister L inp) := by
  by_cases h1 : family = "redhat"
  · simp [mainRun, selectLister, runLister, h1]
  · by_cases h2 : family = "debian"
    · simp [mainRun, selectLister, runLister, h1, h2]
    · by_cases h3 : family = "darwin"
      · simp [mainRun, selectLister, runLister, h1, h2, h3]
      · simp [mainRun, selectLister, h1, h2, h3]

lemma goSplitN_head_cons (sep c : Char) (l : List Char) (h : ¬ c = sep) :
    ∃ w, (goSplitN sep 2 (c :: l)).getD 0 [] = c :: w := by
  unfold goSplitN
  simp only [splitChar, if_neg h]
  cases hs : splitChar sep l with
  | nil => exact absurd hs (splitChar_ne_nil sep l)
  | cons w ws =>
    by_cases hl : (((c :: w) :: ws) : List (List Char)).length ≤ 2
    · rw [if_pos hl]
      exact ⟨w, rfl⟩
    · rw [if_neg hl]
      exact ⟨w, rfl⟩

lemma goIsSpace_cases (c : Char) (h : goIsSpace c = true) :
    c = ' ' ∨ c = '\t' ∨ c = '\n' ∨ c = '\u000b' ∨ c = '\u000c' ∨
    c = '\r' ∨ c = '\u0085' ∨ c = '\u00a0' := by
  simp only [goIsSpace, Bool.or_eq_true, decide_eq_true_eq] at h
  tauto

lemma cons_ne_of_head_ne {c d : Char} {w v : List Char} (h : c ≠ d) :
    (c :: w) ≠ (d :: v) := by
  intro hEq
  injection hEq with h1 h2
  exact h h1

/-- Concrete Debian status-file lines: one full block with no Package
key, terminated by a blank line. -/
def debNoNameLines : List (List Char) := ["Version: 1.0".data, []]

/-- C1 counterexample: a terminated block without a Package key is
appended, so the Debian lister emits a record whose Name is empty — the
claim that Name is always populated (non-empty) on every emitted record
is false on the code. -/
theorem c1_empty_name_emitted :
    listDebPackages debNoNameLines = .ok [⟨"", "1.0", "", "", "", 0, 0, ""⟩] ∧
    (⟨"", "1.0", "", "", "", 0, 0, ""⟩ : Package).Name = "" := by
  constructor
  · decide
  · rfl

/-- C1 amended: a blank line appends the in-progress record verbatim
and resets it, with no validation that Name was set — so the Debian
lister can emit records with empty Name. -/
theorem c1_append_without_name_validation :
    ∀ (st : DebState) (line : List Char), isBlank line = true →
      debStep st line = .ok ⟨st.packages ++ [st.pkg], emptyPackage⟩ :=
  fun st line h => debStep_blank st line h

/-- C1 witness: the append-without-validation theorem at a concrete
state whose in-progress record has an empty Name. -/
theorem c1_append_witness :
    debStep ⟨[], emptyPackage⟩ [] = .ok ⟨[emptyPackage], emptyPackage⟩ :=
  c1_append_without_name_validation ⟨[], emptyPackage⟩ [] (by decide)

/-- Companion metadata file content whose first lines carry the desc and
homepage markers of the spec. -/
def brewMetaContent : List Char :=
  "  desc \"does things\"\n  homepage \"https://example.com\"\n".data

/-- A cellar with one package directory foo, one version directory 1.0
(modification time 11) containing the companion metadata file
.brew/foo.rb. -/
def brewCellarWithMeta : List FSNode :=
  [FSNode.dir "foo" 5 [FSNode.dir "1.0" 11
    [FSNode.dir ".brew" 12 [FSNode.file "foo.rb" brewMetaContent]]]]

/-- C2 counterexample: the companion file satisfies the claim premise —
the spec-modelled scan of its first 15 lines finds both desc and
homepage — yet the record the code produces has an empty Summary (and
the Package schema has no URL field at all): listBrewPackages performs
no enrichment. -/
theorem c2_no_enrichment_performed :
    (specScanMeta brewMetaContent).1 = "does things".data ∧
    (specScanMeta brewMetaContent).2 = "https://example.com".data ∧
    listBrewPackages brewCellarWithMeta = [⟨"foo", "1.0", "", "", "", 11, 0, ""⟩] ∧
    ("" : String) ≠ "does things" := by
  refine ⟨by decide, by decide, by decide, by decide⟩

/-- C2 amended: the Homebrew lister performs no companion-file
enrichment — every record it returns has empty Summary (the schema has
no URL field), and the record still appears whether or not a companion
file is present. -/
theorem c2_summary_always_empty :
    ∀ (cellar : List FSNode) (p : Package), p ∈ listBrewPackages cellar →
      p.Summary = "" ∧ p.Release = "" ∧ p.Arch = "" ∧ p.License = "" ∧ p.Size = 0 :=
  fun cellar p h => mem_listBrew_fields cellar p h

/-- C2 witness: the empty-Summary theorem at the record produced from
the cellar that does contain a companion metadata file. -/
theorem c2_summary_witness :
    (⟨"foo", "1.0", "", "", "", 11, 0, ""⟩ : Package).Summary = "" ∧
    (⟨"foo", "1.0", "", "", "", 11, 0, ""⟩ : Package).Release = "" ∧
    (⟨"foo", "1.0", "", "", "", 11, 0, ""⟩ : Package).Arch = "" ∧
    (⟨"foo", "1.0", "", "", "", 11, 0, ""⟩ : Package).License = "" ∧
    (⟨"foo", "1.0", "", "", "", 11, 0, ""⟩ : Package).Size = 0 :=
  c2_summary_always_empty brewCellarWithMeta ⟨"foo", "1.0", "", "", "", 11, 0, ""⟩ (by decide)

/-- A cellar with one package directory foo holding the version
directories 1.0 (modification time 11) and 2.0 (modification time 22),
no companion metadata anywhere. -/
def brewCellarTwoVersions : List FSNode :=
  [FSNode.dir "foo" 5 [FSNode.dir "1.0" 11 [], FSNode.dir "2.0" 22 []]]

/-- C7: the Homebrew lister returns exactly one record per
(package directory, version directory) pair, with Name the package
directory name, Version the version directory name, InstallTime the
version directory modification time, everything else (Summary included)
at its zero value; on the two-version example it returns exactly the
two expected records.  (The Package schema has no URL field, so no URL
is ever populated.) -/
theorem c7_one_record_per_pair :
    (∀ cellar : List FSNode, listBrewPackages cellar =
      (cellar.filter isDirNode).flatMap
        (fun d => ((nodeEntries d).filter isDirNode).map (brewBaseRecord (nodeName d)))) ∧
    listBrewPackages brewCellarTwoVersions =
      [⟨"foo", "1.0", "", "", "", 11, 0, ""⟩, ⟨"foo", "2.0", "", "", "", 22, 0, ""⟩] :=
  ⟨listBrew_eq, by decide⟩

/-- C9: dispatch runs exactly the one lister selected for the detected
family; every unsupported family (windows among them) exits with code 1
and emits zero records. -/
theorem c9_dispatch_one_lister :
    (∀ inp : HostInput, mainRun "windows" inp = .error 1) ∧
    (∀ (family : String) (inp : HostInput), selectLister family = none →
      mainRun family inp = .error 1) ∧
    (∀ (family : String) (inp : HostInput) (L : Lister), selectLister family = some L →
      mainRun family inp = runLister L inp) := by
  refine ⟨fun inp => rfl, ?_, ?_⟩
  · intro family inp h
    rw [mainRun_eq_select, h]
  · intro family inp L h
    rw [mainRun_eq_select, h]

/-- C9 witness: the dispatch theorem applied at the windows family and
a concrete host input. -/
theorem c9_dispatch_witness :
    mainRun "windows" ⟨[], [], []⟩ = .error 1 :=
  c9_dispatch_one_lister.2.1 "windows" ⟨[], [], []⟩ (by decide)

/-- C3: for a status file made of K blocks of parseable key/value lines,
each terminated by a blank line, followed by an optional unterminated
trailing block, the Debian lister succeeds and returns exactly K
records — the trailing block is dropped. -/
theorem c3_blocks_count :
    ∀ (blocks : List (List (List Char))) (trailing : List (List Char)),
      (∀ b ∈ blocks, ∀ l ∈ b, debLineOk l) →
      (∀ l ∈ trailing, debLineOk l) →
      ∃ ps, listDebPackages (blocks.flatMap (fun b => b ++ [[]]) ++ trailing) = .ok ps ∧
        ps.length = blocks.length := by
  intro blocks trailing hb ht
  obtain ⟨ps, q, hps, hlen⟩ := debSteps_blocks blocks hb ⟨[], emptyPackage⟩
  have hps2 : debSteps ⟨[], emptyPackage⟩ (blocks.flatMap (fun b => b ++ [[]])) =
      .ok ⟨ps, q⟩ := hps
  obtain ⟨q2, hq2⟩ := debSteps_ok_frame trailing ht ⟨ps, q⟩
  have hq3 : debSteps ⟨ps, q⟩ trailing = .ok ⟨ps, q2⟩ := hq2
  have hall := debSteps_append ⟨[], emptyPackage⟩ _ trailing _ hps2
  rw [hq3] at hall
  exact ⟨ps, by simp [listDebPackages, hall], hlen⟩

/-- C3 witness: a literal 2-block file whose second block lacks the
trailing blank line yields exactly 1 record. -/
theorem c3_blocks_witness :
    ∃ ps, listDebPackages (([["Package: a".data]].flatMap (fun b => b ++ [[]])) ++
        ["Package: b".data]) = .ok ps ∧ ps.length = 1 :=
  c3_blocks_count [["Package: a".data]] ["Package: b".data] (by decide) (by decide)

/-- C4: when every non-blank line of the rpm output is well formed
(8 pipe-delimited fields, numeric fields 6 and 7), the lister succeeds
and returns one record per non-blank line, positionally mapped by
parseRPMFields; blank lines are skipped. -/
theorem c4_rpm_positional :
    ∀ out : List Char,
      (∀ l ∈ splitChar '\n' out, isBlank l = false → rpmWF l) →
      listRPMPackages out =
        .ok (((splitChar '\n' out).filter (fun l => !isBlank l)).map parseRPMFields) ∧
      ∀ ps, listRPMPackages out = .ok ps →
        ps.length = ((splitChar '\n' out).filter (fun l => !isBlank l)).length := by
  intro out h
  have h1 : listRPMPackages out =
      .ok (((splitChar '\n' out).filter (fun l => !isBlank l)).map parseRPMFields) :=
    rpmLoop_ok_of_wf (splitChar '\n' out) h
  refine ⟨h1, ?_⟩
  intro ps hps
  rw [h1] at hps
  injection hps with h2
  rw [← h2, List.length_map]

/-- C4 witness: a two-line output (one of them blank) maps to exactly
one record with the eight fields in place. -/
theorem c4_rpm_witness :
    listRPMPackages "a|1.0|2|x86|MIT|5|10|hi\n".data =
      .ok [⟨"a", "1.0", "2", "x86", "MIT", 5, 10, "hi"⟩] :=
  ((c4_rpm_positional "a|1.0|2|x86|MIT|5|10|hi\n".data (by decide)).1).trans (by decide)

/-- C5: one non-blank line with fewer than 8 pipe-delimited fields makes
the whole RPM run fail — an error is returned and no records. -/
theorem c5_short_line_fatal :
    ∀ (out l : List Char), l ∈ splitChar '\n' out → isBlank l = false →
      (goSplitN '|' 8 l).length < 8 → isErrorE (listRPMPackages out) = true := by
  intro out l hmem hnb hlt
  exact rpmLoop_error_of_bad _ l hmem ⟨hnb, Or.inl hlt⟩

/-- C5 witness: the short-line theorem on the output consisting of the
single line with one pipe. -/
theorem c5_short_line_witness : isErrorE (listRPMPackages "a|b".data) = true :=
  c5_short_line_fatal "a|b".data "a|b".data (by decide) (by decide) (by decide)

/-- C6: a failed numeric conversion is fatal for the whole run with no
partial results — an RPM line whose install-time or size field fails to
parse, or a Debian Installed-Size line whose value fails to parse, makes
the respective lister return an error and no records. -/
theorem c6_numeric_failure_fatal :
    (∀ (out l : List Char), l ∈ splitChar '\n' out → isBlank l = false →
      (goParseInt64 ((goSplitN '|' 8 l).getD 5 []) = none ∨
        ((goSplitN '|' 8 l).length ≥ 8 ∧
          goParseUint64 ((goSplitN '|' 8 l).getD 6 []) = none)) →
      isErrorE (listRPMPackages out) = true) ∧
    (∀ (lines : List (List Char)) (l : List Char), l ∈ lines → debSizeBad l →
      isErrorE (listDebPackages lines) = true) := by
  constructor
  · intro out l hmem hnb hcase
    refine rpmLoop_error_of_bad _ l hmem ⟨hnb, ?_⟩
    rcases hcase with h | h
    · exact Or.inr (Or.inl h)
    · exact Or.inr (Or.inr h)
  · intro lines l hmem hbad
    exact listDeb_error_of_bad lines l hmem hbad

/-- C6 witness: an RPM line with install time abc and a Debian
Installed-Size line with value abc are both fatal. -/
theorem c6_numeric_failure_witness :
    isErrorE (listRPMPackages "n|1|2|x|L|abc|9|s".data) = true ∧
    isErrorE (listDebPackages ["Installed-Size: abc".data]) = true :=
  ⟨c6_numeric_failure_fatal.1 "n|1|2|x|L|abc|9|s".data "n|1|2|x|L|abc|9|s".data
      (by decide) (by decide) (by decide),
    c6_numeric_failure_fatal.2 ["Installed-Size: abc".data] "Installed-Size: abc".data
      (by decide) (by decide)⟩

/-- C8 counterexample: a line consisting of a single space starts with
leading whitespace, yet processing it does not leave the in-progress
record intact — the code treats it as blank, appends it and resets the
in-progress record, clearing its previously-set Name. -/
theorem c8_whitespace_line_resets :
    goIsSpace ' ' = true ∧
    debStep ⟨[], ⟨"a", "", "", "", "", 0, 0, ""⟩⟩ [' '] =
      .ok ⟨[⟨"a", "", "", "", "", 0, 0, ""⟩], emptyPackage⟩ ∧
    emptyPackage.Name ≠ (⟨"a", "", "", "", "", 0, 0, ""⟩ : Package).Name := by
  refine ⟨by decide, by decide, by decide⟩

/-- C8 amended: a non-blank line whose first character is whitespace
never alters the in-progress record — the scanner either skips it (a
leading space), falls through the key switch unchanged (the lower-cased
key keeps its leading whitespace and matches no case), or aborts the
run with a no-colon error; only an all-whitespace line (treated as
blank) appends-and-resets instead. -/
theorem c8_continuation_no_mutation :
    ∀ (st : DebState) (line : List Char) (c : Char),
      line.head? = some c → goIsSpace c = true → isBlank line = false →
      debStep st line = .ok st ∨ isErrorE (debStep st line) = true := by
  intro st line c hhead hws hnb
  cases line with
  | nil => simp at hhead
  | cons c0 tail =>
    have hc : c0 = c := by simpa using hhead
    subst hc
    by_cases hsp : c0 = ' '
    · left
      have hswp : startsWithSpace (c0 :: tail) = true := by
        simp [startsWithSpace, hsp]
      simp [debStep, hnb, hswp]
    · have hcs := goIsSpace_cases c0 hws
      have hcolon : ¬ c0 = ':' := by
        rcases hcs with h|h|h|h|h|h|h|h
        · exact absurd h hsp
        all_goals subst h
        all_goals decide
      have hlow : lowerChar c0 ≠ 'p' ∧ lowerChar c0 ≠ 'a' ∧ lowerChar c0 ≠ 'v' ∧
          lowerChar c0 ≠ 'd' ∧ lowerChar c0 ≠ 'i' := by
        rcases hcs with h|h|h|h|h|h|h|h
        · exact absurd h hsp
        all_goals subst h
        all_goals decide
      have hswp : startsWithSpace (c0 :: tail) = false := by
        simp [startsWithSpace, hsp]
      obtain ⟨w, hw⟩ := goSplitN_head_cons ':' c0 tail hcolon
      by_cases hlen : (goSplitN ':' 2 (c0 :: tail)).length = 2
      · left
        have hkey : goToLower ((goSplitN ':' 2 (c0 :: tail)).getD 0 []) =
            lowerChar c0 :: goToLower w := by
          rw [hw]
          rfl
        have hne1 : lowerChar c0 :: goToLower w ≠ "package".data := by
          have hrw : "package".data = 'p' :: "ackage".data := rfl
          rw [hrw]
          exact cons_ne_of_head_ne hlow.1
        have hne2 : lowerChar c0 :: goToLower w ≠ "architecture".data := by
          have hrw : "architecture".data = 'a' :: "rchitecture".data := rfl
          rw [hrw]
          exact cons_ne_of_head_ne hlow.2.1
        have hne3 : lowerChar c0 :: goToLower w ≠ "version".data := by
          have hrw : "version".data = 'v' :: "ersion".data := rfl
          rw [hrw]
          exact cons_ne_of_head_ne hlow.2.2.1
        have hne4 : lowerChar c0 :: goToLower w ≠ "description".data := by
          have hrw : "description".data = 'd' :: "escription".data := rfl
          rw [hrw]
          exact cons_ne_of_head_ne hlow.2.2.2.1
        have hne5 : lowerChar c0 :: goToLower w ≠ "installed-size".data := by
          have hrw : "installed-size".data = 'i' :: "nstalled-size".data := rfl
          rw [hrw]
          exact cons_ne_of_head_ne hlow.2.2.2.2
        have hupd : debKeyUpdate st.pkg (goToLower ((goSplitN ':' 2 (c0 :: tail)).getD 0 []))
            (goTrimSpace ((goSplitN ':' 2 (c0 :: tail)).getD 1 [])) = .ok st.pkg := by
          rw [hkey]
          simp [debKeyUpdate, hne1, hne2, hne3, hne4, hne5]
        have hb0 : (0 : Nat) < (goSplitN ':' 2 (c0 :: tail)).length := by omega
        have hb1 : (1 : Nat) < (goSplitN ':' 2 (c0 :: tail)).length := by omega
        simp only [List.getD_eq_getElem?_getD, List.getElem?_eq_getElem hb0,
          List.getElem?_eq_getElem hb1, Option.getD_some] at hupd
        simp [debStep, hnb, hswp, hlen, hupd]
      · right
        simp [debStep, hnb, hswp, hlen, isErrorE]

/-- C8 witness: the no-mutation theorem at a concrete continuation
line. -/
theorem c8_continuation_witness :
    debStep ⟨[], emptyPackage⟩ " x".data = .ok ⟨[], emptyPackage⟩ ∨
    isErrorE (debStep ⟨[], emptyPackage⟩ " x".data) = true :=
  c8_continuation_no_mutation ⟨[], emptyPackage⟩ " x".data ' '
    (by decide) (by decide) (by decide)

/-- An RPM output line with nine pipe delimiters. -/
def rpmPipeLine : List Char := "a|b|c|d|e|5|6|x|y|z".data

/-- C10: a line with more than 7 pipe delimiters does not trip the
field-count check — SplitN caps the split at 8 fields, so the 8th field
(Summary) is the verbatim suffix after the 7th pipe, extra pipes
included; when the numeric fields parse, the per-line parse succeeds
with exactly that Summary. -/
theorem c10_extra_pipes_in_summary :
    ∀ line : List Char, 7 < line.count '|' →
      (goSplitN '|' 8 line).length = 8 ∧
      (goSplitN '|' 8 line).getD 7 [] = joinSep '|' ((splitChar '|' line).drop 7) ∧
      '|' ∈ (goSplitN '|' 8 line).getD 7 [] ∧
      (parseRPMFields line).Summary = ⟨(goSplitN '|' 8 line).getD 7 []⟩ ∧
      (isBlank line = false →
        (goParseInt64 ((goSplitN '|' 8 line).getD 5 [])).isSome = true →
        (goParseUint64 ((goSplitN '|' 8 line).getD 6 [])).isSome = true →
        rpmLoop [line] = .ok [parseRPMFields line]) := by
  intro line h
  have hparts : 8 < (splitChar '|' line).length := by
    rw [length_splitChar]
    omega
  have hn : ¬ (splitChar '|' line).length ≤ 8 := by omega
  have hsplit : goSplitN '|' 8 line =
      (splitChar '|' line).take 7 ++ [joinSep '|' ((splitChar '|' line).drop 7)] := by
    unfold goSplitN
    rw [if_neg hn]
  have htake : ((splitChar '|' line).take 7).length = 7 := by
    rw [List.length_take]
    omega
  have hlen : (goSplitN '|' 8 line).length = 8 := by
    rw [hsplit]
    simp [htake]
  have hgetD : (goSplitN '|' 8 line).getD 7 [] = joinSep '|' ((splitChar '|' line).drop 7) := by
    rw [hsplit]
    have hg := getD_append_singleton ((splitChar '|' line).take 7)
      (joinSep '|' ((splitChar '|' line).drop 7)) []
    rw [htake] at hg
    exact hg
  have hdrop : 2 ≤ ((splitChar '|' line).drop 7).length := by
    rw [List.length_drop]
    omega
  have hmem : '|' ∈ (goSplitN '|' 8 line).getD 7 [] := by
    rw [hgetD]
    exact mem_joinSep _ _ hdrop
  refine ⟨hlen, hgetD, hmem, rfl, ?_⟩
  intro hnb hint huint
  have hwf : ∀ l ∈ [line], isBlank l = false → rpmWF l := by
    intro l hl hb
    have hle : l = line := by simpa using hl
    subst hle
    exact ⟨hlen, hint, huint⟩
  have hok := rpmLoop_ok_of_wf [line] hwf
  simpa [List.filter, hnb] using hok

/-- C10 witness: the extra-pipes theorem on a concrete line with nine
pipe delimiters. -/
theorem c10_extra_pipes_witness :
    (goSplitN '|' 8 rpmPipeLine).length = 8 ∧
    '|' ∈ (goSplitN '|' 8 rpmPipeLine).getD 7 [] ∧
    rpmLoop [rpmPipeLine] = .ok [parseRPMFields rpmPipeLine] := by
  have h := c10_extra_pipes_in_summary rpmPipeLine (by decide)
  exact ⟨h.1, h.2.2.1, h.2.2.2.2 (by decide) (by decide) (by decide)⟩
